import Mathlib

/-!
# Verification of the `DecisionTree` navigation/history engine

Shallow embedding of `src/decision_tree.js` (class `DecisionTree`).

The DOM / analytics / cookie calls are presentation glue; what is embedded
here is the state-relevant behaviour of the source functions:

* `_loadSteps`, the constructor's steps check (`Array.isArray`);
* `_validateHistory` / `_loadStorage` / `_saveStorage` (persistence, keyed
  by the tree id; a `localStorage` value is a one-key map
  `{treeId: entry}`, modelled as `Option` of the entry);
* `trackAnswer`, `trackBackButton`, `trackRestartButton` (the transitions);
* `filter` / `is_in_history` (summary visibility).

JavaScript string operations used by the source (`split` on a one-character
separator, `trim`, truthiness of strings/arrays) are embedded explicitly so
that every definition evaluates inside the kernel.
-/

namespace DecisionTree

/-! ## JavaScript string primitives -/

/-- One step of JavaScript `String.prototype.split(sep)` over the character
list of the string: pieces between occurrences of `sep`, empty pieces kept,
the empty string splitting to `[""]`. `acc` holds the current piece,
reversed. -/
def jsSplitAux (sep : Char) : List Char → List Char → List String
  | [], acc => [String.mk acc.reverse]
  | c :: cs, acc =>
    if c = sep then String.mk acc.reverse :: jsSplitAux sep cs []
    else jsSplitAux sep cs (c :: acc)

/-- JavaScript `s.split(sep)` for a one-character separator (the source only
splits on `','` and `' '`). -/
def jsSplit (s : String) (sep : Char) : List String := jsSplitAux sep s.data []

/-- JavaScript whitespace (the characters relevant to `trim` here). -/
def jsWhitespace (c : Char) : Bool := c = ' ' || c = '\t' || c = '\n' || c = '\r'

/-- JavaScript `s.trim()`: strip whitespace from both ends. -/
def jsTrim (s : String) : String :=
  String.mk (((s.data.dropWhile jsWhitespace).reverse.dropWhile jsWhitespace).reverse)

/-- JavaScript truthiness of a string: only `''` is falsy. -/
def strFalsy (s : String) : Bool := s = ""

/-! ## Data model

`Config` is `this.config` as built by the constructor:
`{id, first_step: steps[0], steps}`. -/

structure Config where
  id : String
  first_step : String
  steps : List String
deriving DecidableEq

/-- `this.storage` once the engine is running: the active step and the
history, both always present (`_loadStorage`'s fresh state and every
transition keep both fields set). -/
structure TreeState where
  active : String
  history : List String
deriving DecidableEq

/-- A persisted entry as found in `localStorage` JSON: either field may be
absent (`?? ''` and the `!x` checks in the source handle that). Extra JSON
fields (such as `first_step`) are carried along unchanged by the source and
never read back, so they are not modelled. -/
structure PEntry where
  active : Option String
  history : Option (List String)
deriving DecidableEq

/-- JavaScript truthiness of a possibly-absent string field:
`undefined`/`null` and `''` are falsy. -/
def optStrFalsy : Option String → Bool
  | none => true
  | some s => s = ""

/-! ## Summary entry and the filter (`filter` / `is_in_history`)

A summary `li` may carry `data-pass-filter` and/or `data-stop-filter`
attribute values. -/

structure SummaryEntry where
  pass : Option String
  stop : Option String
deriving DecidableEq

/-- `is_in_history(filter_array)`:
`filter_array.split(' ').every((object) => this.storage.history.includes(object))`. -/
def is_in_history (history : List String) (filter_array : String) : Bool :=
  (jsSplit filter_array ' ').all (fun object => history.contains object)

/-- The visibility decision of `filter()` for one summary entry.
`show_step` starts `true`; a `data-pass-filter` replaces it by
`every` AND-group passing; a `data-stop-filter` is folded with
`if (show_step === true && result === true) show_step = false`. -/
def filterVisible (history : List String) (info : SummaryEntry) : Bool :=
  let show_step := true
  let show_step := match info.pass with
    | some v => (jsSplit v ',').all (fun grp => is_in_history history (jsTrim grp))
    | none => show_step
  let show_step := match info.stop with
    | some v =>
      (jsSplit v ',').foldl
        (fun sh grp => if sh && is_in_history history (jsTrim grp) then false else sh)
        show_step
    | none => show_step
  show_step

/-- Spec-side predicate: the pass expression is satisfied when every
comma-separated AND-group has all of its space-separated identifiers in the
history; vacuously true when no pass expression is declared. -/
def passSatisfied (history : List String) (info : SummaryEntry) : Bool :=
  match info.pass with
  | none => true
  | some v => (jsSplit v ',').all (fun grp => is_in_history history (jsTrim grp))

/-- Spec-side predicate: the stop expression is satisfied when some
comma-separated AND-group is fully present in the history; false when no
stop expression is declared. -/
def stopSatisfied (history : List String) (info : SummaryEntry) : Bool :=
  match info.stop with
  | none => false
  | some v => (jsSplit v ',').any (fun grp => is_in_history history (jsTrim grp))

/-! ## Persistence (`_saveStorage`, `_validateHistory`, `_loadStorage`)

`localStorage.getItem(id)` parses to a map `{treeId: entry}`; since only
the key `this.config.id` is ever read or written, the stored value is
modelled as `Option` of the entry at that key (`none` for an absent item or
the empty map written by the clearing branch). -/

/-- `_saveStorage()` on an arbitrary in-memory `this.storage` record.
The previous map `old` is read and its entry is overwritten
(`storage[this.config.id] = this.storage`), so it never survives into the
result. The clean-up branch `if (!this.storage.active || !this.storage.history)`
replaces the map by `{}`; note that in JavaScript an *empty array* is
truthy, so only an absent `history` (not an empty one) triggers it, while
`active` is falsy when absent or the empty string. -/
def writeStorage (old : Option PEntry) (e : PEntry) : Option PEntry :=
  let withEntry : Option PEntry := some e
  if optStrFalsy e.active || e.history = none then none
  else (fun (_ : Option PEntry) => withEntry) old

/-- `_loadStorage(id)` together with the `_validateHistory` call it makes:
given the persisted value, return the entry handed back to the engine and
the persisted value as it stands after the call.

When an entry is present, `_validateHistory` reads
`history = storage[id].history ?? ''` and, when `history` and
`config.steps` are both non-empty and some history element is not in
`steps`, resets the entry's `history`/`active` to the first step and calls
`_saveStorage()` — at that point `this.storage` has been set to the *whole
map*, which has no `active`/`history` fields, so that save clears the
store (writes `{}`). Otherwise the entry is returned unchanged. When no
entry is present, a fresh initial record is returned without saving. -/
def loadStorage (cfg : Config) (stored : Option PEntry) : PEntry × Option PEntry :=
  match stored with
  | some e =>
    match e.history with
    | some h =>
      if 0 < h.length ∧ 0 < cfg.steps.length ∧
          h.all (fun v => cfg.steps.contains v) = false then
        (⟨some cfg.first_step, some [cfg.first_step]⟩, none)
      else (e, stored)
    | none => (e, stored)
  | none => (⟨some cfg.first_step, some [cfg.first_step]⟩, none)

/-- The initial persisted record, as `_loadStorage` builds it
(`{first_step, active: first_step, history: [first_step]}`), restricted to
the fields the engine reads back. -/
def initialEntry (cfg : Config) : PEntry :=
  ⟨some cfg.first_step, some [cfg.first_step]⟩

/-! ## The running engine (closed system)

Once the constructor has run, `this.storage` is a total record
(`TreeState`). The transitions below are the state-relevant parts of
`trackAnswer`, `trackBackButton`, `trackRestartButton` and a re-`load`;
each save is `_saveStorage` specialised to a total record, whose `history`
field is a genuine array (truthy even when empty), so only
`!this.storage.active` — i.e. `active === ''` — can trigger the clearing
branch. -/

/-- `_saveStorage()` for a total in-memory state. -/
def saveStorage (s : TreeState) : Option TreeState :=
  if strFalsy s.active then none else some s

/-- The state mutation of `trackAnswer(nextStep, datakey)`:
`this.storage.active = nextStep; this.storage.history.push(this.storage.active)`.
No membership check of `nextStep` against `config.steps` is performed. -/
def trackAnswer (s : TreeState) (nextStep : String) : TreeState :=
  ⟨nextStep, s.history ++ [nextStep]⟩

/-- `trackAnswer` together with its `_saveStorage` call. -/
def trackAnswerFull (p : TreeState × Option TreeState) (nextStep : String) :
    TreeState × Option TreeState :=
  let s := trackAnswer p.1 nextStep
  (s, saveStorage s)

/-- The state mutation of `trackBackButton()`: early return when
`history.length <= 1`; otherwise `active := history[history.length - 2]`,
`history.pop()`, then `_saveStorage()`. JavaScript indexing out of range
yields `undefined`; it is guarded here, so the default is irrelevant. -/
def trackBackButton (p : TreeState × Option TreeState) :
    TreeState × Option TreeState :=
  let s := p.1
  if s.history.length ≤ 1 then p
  else
    let previousStep := s.history.getD (s.history.length - 2) ""
    let s2 : TreeState := ⟨previousStep, s.history.dropLast⟩
    (s2, saveStorage s2)

/-- The state mutation of `trackRestartButton()`:
`active := config.first_step; history := [config.first_step]`, then
`_saveStorage()`. -/
def trackRestartButton (cfg : Config) (_p : TreeState × Option TreeState) :
    TreeState × Option TreeState :=
  let s2 : TreeState := ⟨cfg.first_step, [cfg.first_step]⟩
  (s2, saveStorage s2)

/-- `_loadStorage` restricted to the closed system, where every persisted
entry was written by `saveStorage` and therefore carries both fields. The
branches mirror `loadStorage` above. -/
def loadT (cfg : Config) (stored : Option TreeState) :
    TreeState × Option TreeState :=
  match stored with
  | some e =>
    if 0 < e.history.length ∧ 0 < cfg.steps.length ∧
        e.history.all (fun v => cfg.steps.contains v) = false then
      (⟨cfg.first_step, [cfg.first_step]⟩, none)
    else (e, stored)
  | none => (⟨cfg.first_step, [cfg.first_step]⟩, none)

/-- The initial engine state (`active = first_step`, `history = [first_step]`). -/
def initState (cfg : Config) : TreeState :=
  ⟨cfg.first_step, [cfg.first_step]⟩

/-- The external events the engine reacts to. -/
inductive Ev where
  | answer (x : String)
  | back
  | restart
  | load
deriving DecidableEq

/-- One event applied to (engine state, persisted value). -/
def stepEv (cfg : Config) (p : TreeState × Option TreeState) : Ev → TreeState × Option TreeState
  | .answer x => trackAnswerFull p x
  | .back => trackBackButton p
  | .restart => trackRestartButton cfg p
  | .load => loadT cfg p.2

/-- Run a sequence of events from the initial state over a fresh store. -/
def runEvents (cfg : Config) (evs : List Ev) : TreeState × Option TreeState :=
  evs.foldl (stepEv cfg) (initState cfg, none)

/-- An event is valid when, if it is an `answer`, its target is a member of
the step graph. -/
def validEv (cfg : Config) : Ev → Bool
  | .answer x => cfg.steps.contains x
  | _ => true

/-- All events of a sequence are valid. -/
def validEvents (cfg : Config) (evs : List Ev) : Bool := evs.all (validEv cfg)

/-- The history invariant of the spec, on an engine state: the history is
non-empty, its last element is the active step, and every element is a
member of the step graph. -/
def stateInv (cfg : Config) (s : TreeState) : Prop :=
  s.history ≠ [] ∧ s.history.getLast? = some s.active ∧ ∀ v ∈ s.history, v ∈ cfg.steps

instance (cfg : Config) (s : TreeState) : Decidable (stateInv cfg s) := by
  unfold stateInv; infer_instance

/-- The persisted value holds only states satisfying the history invariant. -/
def storeInv (cfg : Config) (stored : Option TreeState) : Prop :=
  ∀ e, stored = some e → stateInv cfg e

/-! ## Construction (`constructor` / `_loadSteps`) -/

/-- The configuration record as the constructor assembles it before the
`Array.isArray` check: `first_step: steps[0]` is `undefined` when `steps`
is empty, hence an `Option`. -/
structure RawConfig where
  id : String
  first_step : Option String
  steps : List String
deriving DecidableEq

/-- `_loadSteps(id)`: the list of `el.id` values of the `.step` elements
found in the DOM, in document order (an element without an `id` attribute
contributes the empty string). -/
def loadSteps (domStepIds : List String) : List String := domStepIds

/-- `_loadSteps` emits its `console.warn` exactly when fewer than one step
was found. -/
def loadStepsWarned (domStepIds : List String) : Bool := domStepIds.length < 1

/-- `Array.isArray(steps)` for the value `_loadSteps` returns: that value
is always an array, so the test always passes. -/
def isJsArray (_steps : List String) : Bool := true

/-- The constructor's branching on the steps value: build the config when
`Array.isArray(steps)`, otherwise
`throw new Error('Please follow proper HTML structure.')`. -/
def mkTree (id : String) (domStepIds : List String) : Except String RawConfig :=
  let steps := loadSteps domStepIds
  if isJsArray steps then Except.ok ⟨id, steps.head?, steps⟩
  else Except.error "Please follow proper HTML structure."

/-! ## Concrete instances used in closed statements -/

/-- A one-step graph `{a}`. -/
def cfgA : Config := ⟨"tree", "a", ["a"]⟩

/-- A two-step graph `{a, b}` with first step `a`. -/
def cfgAB : Config := ⟨"tree", "a", ["a", "b"]⟩

/-! ## Filter lemmas -/

/-- The stop-filter fold of `filter()` computes `b && !(any grp satisfied)`. -/
lemma foldl_stop_eq (p : String → Bool) :
    ∀ (l : List String) (b : Bool),
      l.foldl (fun sh grp => if sh && p grp then false else sh) b = (b && !(l.any p))
  | [], b => by cases b <;> rfl
  | a :: t, b => by
    have hfa : (if b && p a then false else b) = (b && !(p a)) := by
      cases b <;> cases p a <;> rfl
    calc (a :: t).foldl (fun sh grp => if sh && p grp then false else sh) b
        = t.foldl (fun sh grp => if sh && p grp then false else sh)
            (if b && p a then false else b) := rfl
      _ = ((if b && p a then false else b) && !(t.any p)) :=
          foldl_stop_eq p t (if b && p a then false else b)
      _ = ((b && !(p a)) && !(t.any p)) := by rw [hfa]
      _ = (b && !((a :: t).any p)) := by
          cases b <;> cases hpa : p a <;> simp [List.any_cons, hpa]

/-- `filterVisible` is exactly `pass` AND NOT `stop`. -/
lemma filterVisible_eq (history : List String) (info : SummaryEntry) :
    filterVisible history info =
      (passSatisfied history info && !(stopSatisfied history info)) := by
  rcases info with ⟨p, s⟩
  cases p <;> cases s <;>
    simp only [filterVisible, passSatisfied, stopSatisfied, foldl_stop_eq] <;>
    simp

/-! ## List helpers -/

/-- The last element of `l.dropLast` is `l[l.length - 2]` when `l` has at
least two elements. -/
lemma dropLast_getLast?_eq :
    ∀ (l : List String), 1 < l.length →
      l.dropLast.getLast? = some (l.getD (l.length - 2) "")
  | [], h => absurd h (by simp)
  | [_], h => absurd h (by simp)
  | [_, _], _ => rfl
  | a :: b :: c :: w, _ => by
    have ih := dropLast_getLast?_eq (b :: c :: w) (by simp)
    show (a :: b :: (c :: w).dropLast).getLast? = _
    rw [List.getLast?_cons_cons]
    exact ih

/-- `getD` at an in-range index is an element of the list. -/
lemma getD_mem (l : List String) (i : Nat) (d : String) (h : i < l.length) :
    l.getD i d ∈ l := by
  rw [List.getD_eq_getElem?_getD, List.getElem?_eq_getElem h]
  exact List.getElem_mem h

/-! ## Invariant preservation -/

/-- Whatever `saveStorage` persists satisfies the invariant the in-memory
state satisfied. -/
lemma storeInv_save (cfg : Config) (s : TreeState) (h : stateInv cfg s) :
    storeInv cfg (saveStorage s) := by
  intro e he
  unfold saveStorage at he
  split at he
  · exact Option.noConfusion he
  · cases he
    exact h

/-- The initial state satisfies the history invariant as soon as the first
step is a member of the step graph. -/
lemma stateInv_initState (cfg : Config) (hf : cfg.first_step ∈ cfg.steps) :
    stateInv cfg (initState cfg) := by
  refine ⟨by simp [initState], rfl, ?_⟩
  intro v hv
  simp [initState] at hv
  simpa [hv] using hf

/-- One valid event preserves the history invariant on the engine state and
on the persisted value. -/
lemma stepEv_preserves (cfg : Config) (hf : cfg.first_step ∈ cfg.steps)
    (p : TreeState × Option TreeState) (e : Ev) (hv : validEv cfg e = true)
    (h1 : stateInv cfg p.1) (h2 : storeInv cfg p.2) :
    stateInv cfg (stepEv cfg p e).1 ∧ storeInv cfg (stepEv cfg p e).2 := by
  obtain ⟨hne, hlast, hmem⟩ := h1
  cases e with
  | answer x =>
    have hx : x ∈ cfg.steps := by simpa [validEv] using hv
    have hs : stateInv cfg (trackAnswer p.1 x) := by
      refine ⟨by simp [trackAnswer], ?_, ?_⟩
      · simp [trackAnswer, List.getLast?_concat]
      · intro v hvmem
        simp only [trackAnswer, List.mem_append, List.mem_singleton] at hvmem
        rcases hvmem with h | h
        · exact hmem v h
        · exact h ▸ hx
    exact ⟨hs, storeInv_save cfg _ hs⟩
  | back =>
    show stateInv cfg (trackBackButton p).1 ∧ storeInv cfg (trackBackButton p).2
    simp only [trackBackButton]
    split
    · exact ⟨⟨hne, hlast, hmem⟩, h2⟩
    · rename_i hlen
      have hlen' : 1 < p.1.history.length := by omega
      have hs : stateInv cfg
          (⟨p.1.history.getD (p.1.history.length - 2) "",
            p.1.history.dropLast⟩ : TreeState) := by
        refine ⟨?_, ?_, ?_⟩
        · refine List.ne_nil_of_length_pos ?_
          rw [List.length_dropLast]; omega
        · exact dropLast_getLast?_eq p.1.history hlen'
        · intro v hvmem
          exact hmem v (List.mem_of_mem_dropLast hvmem)
      exact ⟨hs, storeInv_save cfg _ hs⟩
  | restart =>
    have hs : stateInv cfg (⟨cfg.first_step, [cfg.first_step]⟩ : TreeState) :=
      stateInv_initState cfg hf
    exact ⟨hs, storeInv_save cfg _ hs⟩
  | load =>
    show stateInv cfg (loadT cfg p.2).1 ∧ storeInv cfg (loadT cfg p.2).2
    cases hst : p.2 with
    | none =>
      refine ⟨stateInv_initState cfg hf, ?_⟩
      intro e he
      exact Option.noConfusion he
    | some e0 =>
      obtain ⟨hne0, hlast0, hmem0⟩ := h2 e0 hst
      have hall : e0.history.all (fun v => cfg.steps.contains v) = true := by
        rw [List.all_eq_true]
        intro v hv
        simpa using hmem0 v hv
      simp only [loadT, hall]
      rw [if_neg (by simp)]
      exact ⟨⟨hne0, hlast0, hmem0⟩, fun e he => by cases he; exact ⟨hne0, hlast0, hmem0⟩⟩

/-- A fold of valid events preserves the invariant pair. -/
lemma foldl_stepEv_preserves (cfg : Config) (hf : cfg.first_step ∈ cfg.steps) :
    ∀ (evs : List Ev) (p : TreeState × Option TreeState),
      validEvents cfg evs = true → stateInv cfg p.1 → storeInv cfg p.2 →
      stateInv cfg (evs.foldl (stepEv cfg) p).1 ∧
        storeInv cfg (evs.foldl (stepEv cfg) p).2
  | [], p, _, h1, h2 => ⟨h1, h2⟩
  | e :: t, p, hv, h1, h2 => by
    have hv' : validEv cfg e = true ∧ validEvents cfg t = true := by
      simpa [validEvents] using hv
    have hstep := stepEv_preserves cfg hf p e hv'.1 h1 h2
    exact foldl_stepEv_preserves cfg hf t (stepEv cfg p e) hv'.2 hstep.1 hstep.2

/-! ## Claims -/

/-- C1 (counterexample to the claim as stated): from the initial state of a
tree with steps `{a}`, the reachable state after the single event
`Answer "ghost"` violates the claimed invariant — its history contains the
element `"ghost"`, which is not a member of the step graph, because
`trackAnswer` appends its target without any membership check. -/
theorem C1_counterexample :
    ¬ stateInv cfgA (runEvents cfgA [Ev.answer "ghost"]).1 := by decide

/-- C1 (amended): for every reachable state of one decision-tree instance
(any sequence of load, Answer, Back, Restart from the initial state) in
which every Answer event targets a member of the step graph, the history
is non-empty, its last element equals the active step, and every element
of the history is a member of the step graph's steps. -/
theorem C1_invariant (cfg : Config) (hf : cfg.first_step ∈ cfg.steps)
    (evs : List Ev) (hv : validEvents cfg evs = true) :
    stateInv cfg (runEvents cfg evs).1 := by
  have h1 : stateInv cfg (initState cfg) := stateInv_initState cfg hf
  have h2 : storeInv cfg (none : Option TreeState) :=
    fun e he => Option.noConfusion he
  exact (foldl_stepEv_preserves cfg hf evs (initState cfg, none) hv h1 h2).1

/-- Witness for C1: a concrete valid trace over the graph `{a, b}`. -/
theorem C1_invariant_witness :
    stateInv cfgAB
      (runEvents cfgAB
        [Ev.answer "b", Ev.back, Ev.answer "b", Ev.restart, Ev.load,
          Ev.answer "b"]).1 :=
  C1_invariant cfgAB (by decide)
    [Ev.answer "b", Ev.back, Ev.answer "b", Ev.restart, Ev.load, Ev.answer "b"]
    (by decide)

/-- C2 (counterexample to the claim as stated): with steps `{a, b}` and
persisted `history = [a, ghost, b]`, `load` does return the initial state
and not a partially cleaned history, but it does **not** persist that
initial state immediately: the save made during reconciliation sees
`this.storage` set to the whole storage map (which has no
`active`/`history` fields), so it clears the stored entry instead. -/
theorem C2_counterexample :
    (loadStorage cfgAB (some ⟨some "a", some ["a", "ghost", "b"]⟩)).2 ≠
        some (initialEntry cfgAB) ∧
      (loadStorage cfgAB (some ⟨some "a", some ["a", "ghost", "b"]⟩)).2 = none := by
  decide

/-- C2 (amended): for every persisted state whose history contains at least
one element that is not a member of the (non-empty) step graph, load
discards the whole persisted state and returns the initial state
(`active = firstStep`, `history = [firstStep]`) — never a partially cleaned
history — but the immediate persistence clears the stored entry (writes an
empty record) rather than storing the initial state. -/
theorem C2_load_reconciliation (cfg : Config) (act : Option String)
    (h : List String) (hsteps : cfg.steps ≠ [])
    (hbad : ∃ v ∈ h, v ∉ cfg.steps) :
    loadStorage cfg (some ⟨act, some h⟩) = (initialEntry cfg, none) := by
  obtain ⟨v, hvmem, hvnot⟩ := hbad
  have hlen : 0 < h.length := List.length_pos.mpr (List.ne_nil_of_mem hvmem)
  have hallf : h.all (fun v => cfg.steps.contains v) = false := by
    rw [List.all_eq_false]
    exact ⟨v, hvmem, by simpa using hvnot⟩
  simp only [loadStorage]
  rw [if_pos ⟨hlen, List.length_pos.mpr hsteps, hallf⟩]
  rfl

/-- Witness for C2: the concrete stale history `[a, ghost, b]` against the
graph `{a, b}`. -/
theorem C2_load_reconciliation_witness :
    loadStorage cfgAB (some ⟨some "a", some ["a", "ghost", "b"]⟩) =
      (initialEntry cfgAB, none) :=
  C2_load_reconciliation cfgAB (some "a") ["a", "ghost", "b"] (by decide)
    (by decide)

/-- C3 (confirmed): for every history and every summary entry, the entry is
visible exactly when every comma-separated AND-group of its pass
expression has all of its space-separated identifiers in the history
(vacuously true with no pass expression) and no AND-group of its stop
expression is fully present: `visible = passSatisfied AND NOT stopSatisfied`. -/
theorem C3_filter_semantics (history : List String) (info : SummaryEntry) :
    filterVisible history info =
      (passSatisfied history info && !(stopSatisfied history info)) :=
  filterVisible_eq history info

/-- C4 (counterexample to the claim as stated): with step graph `{a}`, the
Answer event targeting the unknown step `"ghost"` is not a no-op — the
engine transitions, changing the active step and appending the unknown
target to the history. -/
theorem C4_counterexample :
    cfgA.steps.contains "ghost" = false ∧
      (trackAnswerFull (initState cfgA, some (initState cfgA)) "ghost").1 ≠
        initState cfgA := by
  decide

/-- C4 (amended): for every state and every Answer event whose target step
is not a member of the step graph's steps, the engine performs the
transition unchecked — it sets the active step to the unknown target,
appends it to the history, and hands the corrupted state to the store; no
error is surfaced and nothing is left unchanged. -/
theorem C4_unknown_target (cfg : Config) (p : TreeState × Option TreeState)
    (x : String) (_hx : x ∉ cfg.steps) :
    (trackAnswerFull p x).1.active = x ∧
      (trackAnswerFull p x).1.history = p.1.history ++ [x] ∧
      (trackAnswerFull p x).2 = saveStorage ⟨x, p.1.history ++ [x]⟩ :=
  ⟨rfl, rfl, rfl⟩

/-- Witness for C4: the unknown target `"ghost"` against the graph `{a}`. -/
theorem C4_unknown_target_witness :
    (trackAnswerFull (initState cfgA, some (initState cfgA)) "ghost").1.active =
        "ghost" ∧
      (trackAnswerFull (initState cfgA, some (initState cfgA)) "ghost").1.history =
        (initState cfgA).history ++ ["ghost"] ∧
      (trackAnswerFull (initState cfgA, some (initState cfgA)) "ghost").2 =
        saveStorage ⟨"ghost", (initState cfgA).history ++ ["ghost"]⟩ :=
  C4_unknown_target cfgA (initState cfgA, some (initState cfgA)) "ghost"
    (by decide)

/-- C5 (confirmed): Back is a no-op leaving the active step and history
unchanged when the history has at most one element (the function returns
early, changing nothing); with more than one element it sets the active
step to the second-to-last history element, removes the last history
element, and hands the resulting state to the store. -/
theorem C5_back (p : TreeState × Option TreeState) :
    (p.1.history.length ≤ 1 → trackBackButton p = p) ∧
      (1 < p.1.history.length →
        trackBackButton p =
          (⟨p.1.history.getD (p.1.history.length - 2) "", p.1.history.dropLast⟩,
            saveStorage
              ⟨p.1.history.getD (p.1.history.length - 2) "",
                p.1.history.dropLast⟩)) := by
  constructor
  · intro h
    simp only [trackBackButton]
    rw [if_pos h]
  · intro h
    simp only [trackBackButton]
    rw [if_neg (by omega)]

/-- Witness for C5: a one-element history is untouched; `[a, b]` pops back
to `[a]` with active `a`, and that state is persisted. -/
theorem C5_back_witness :
    trackBackButton (⟨"a", ["a"]⟩, some ⟨"a", ["a"]⟩) =
        (⟨"a", ["a"]⟩, some ⟨"a", ["a"]⟩) ∧
      trackBackButton (⟨"b", ["a", "b"]⟩, none) =
        (⟨"a", ["a"]⟩, some ⟨"a", ["a"]⟩) := by
  refine ⟨(C5_back _).1 (by decide), ?_⟩
  exact ((C5_back ((⟨"b", ["a", "b"]⟩ : TreeState), none)).2 (by decide)).trans
    (by decide)

/-- C6 (counterexample to the claim as stated): a state with `active` set
and an *empty* `history` array is **not** cleared — in JavaScript an empty
array is truthy, so `!this.storage.history` does not fire and the partial
record `{active: "a", history: []}` is persisted. -/
theorem C6_counterexample :
    writeStorage none ⟨some "a", some ([] : List String)⟩ ≠ none ∧
      writeStorage none ⟨some "a", some ([] : List String)⟩ =
        some ⟨some "a", some []⟩ := by
  decide

/-- C6 (amended): save clears the persisted entry exactly when `active` is
unset or the empty string, or `history` is unset; an empty `history` array
with a truthy `active` is persisted as-is. In every case the previous
persisted value is overwritten — the result does not depend on it. -/
theorem C6_save (old : Option PEntry) (e : PEntry) :
    writeStorage old e =
      if e.active = none ∨ e.active = some "" ∨ e.history = none then none
      else some e := by
  rcases e with ⟨ea, eh⟩
  rcases ea with _ | s
  · simp [writeStorage, optStrFalsy]
  · rcases eh with _ | h
    · simp [writeStorage, optStrFalsy]
    · by_cases hs : s = "" <;> simp [writeStorage, optStrFalsy, hs]

/-- C7 (confirmed): Restart is idempotent — applying it twice yields the
same state (and persisted value) as applying it once, and either way the
resulting state is `active = firstStep`, `history = [firstStep]`. -/
theorem C7_restart_idempotent (cfg : Config) (p : TreeState × Option TreeState) :
    trackRestartButton cfg (trackRestartButton cfg p) = trackRestartButton cfg p ∧
      (trackRestartButton cfg p).1 =
        (⟨cfg.first_step, [cfg.first_step]⟩ : TreeState) :=
  ⟨rfl, rfl⟩

/-- C8 (confirmed): from any state satisfying the history invariant,
`Answer(x)` followed by `Back` restores the exact state — the active step
and the entire history sequence — since Back pops the element Answer
appended. -/
theorem C8_answer_back (s : TreeState) (stored : Option TreeState) (x : String)
    (hne : s.history ≠ []) (hlast : s.history.getLast? = some s.active) :
    (trackBackButton (trackAnswerFull (s, stored) x)).1 = s := by
  obtain ⟨a, h⟩ := s
  have hne2 : h ≠ [] := hne
  have hlast2 : h.getLast? = some a := hlast
  have hpos : 0 < h.length := List.length_pos.mpr hne2
  have hlen : ¬ (h ++ [x]).length ≤ 1 := by
    rw [List.length_append, List.length_singleton]
    omega
  show (trackBackButton (⟨x, h ++ [x]⟩, saveStorage ⟨x, h ++ [x]⟩)).1 =
    (⟨a, h⟩ : TreeState)
  simp only [trackBackButton]
  rw [if_neg hlen]
  show (⟨(h ++ [x]).getD ((h ++ [x]).length - 2) "", (h ++ [x]).dropLast⟩ :
    TreeState) = ⟨a, h⟩
  have hidx : (h ++ [x]).length - 2 = h.length - 1 := by
    rw [List.length_append, List.length_singleton]
    omega
  have hget : (h ++ [x]).getD (h.length - 1) "" = a := by
    rw [List.getD_append _ _ _ _ (by omega : h.length - 1 < h.length),
      List.getD_eq_getElem?_getD, ← List.getLast?_eq_getElem?, hlast2]
    rfl
  rw [List.dropLast_concat, hidx, hget]

/-- Witness for C8: answering `b` from the initial state over `{a, b}` and
going back restores the initial state exactly. -/
theorem C8_answer_back_witness :
    (trackBackButton (trackAnswerFull (initState cfgAB, none) "b")).1 =
      initState cfgAB :=
  C8_answer_back (initState cfgAB) none "b" (by decide) (by decide)

/-- C9 (counterexample to the claim as stated): construction with an empty
step list does **not** fail — `_loadSteps` returns `[]`, which is an
array, so `Array.isArray(steps)` holds and the constructor proceeds with
an empty step graph (and an `undefined` first step); only a console
warning is emitted. -/
theorem C9_counterexample :
    mkTree "tree" [] = Except.ok ⟨"tree", none, []⟩ ∧
      loadStepsWarned [] = true :=
  ⟨rfl, rfl⟩

/-- C9 (amended): for every supplied step list that is empty, construction
emits the at-least-one-step warning but proceeds: it builds a
configuration with the empty step graph and no first step instead of
failing; the constructor throws only when the steps value is not an
array, which never happens for the value `_loadSteps` returns. -/
theorem C9_empty_steps (id : String) :
    mkTree id [] = Except.ok ⟨id, none, []⟩ ∧
      loadStepsWarned [] = true ∧ (∀ dom : List String, isJsArray dom = true) :=
  ⟨rfl, rfl, fun _ => rfl⟩

/-- C10 (counterexample to the claim as stated): when the history itself
contains the empty string (a `.step` element without an `id` contributes
`""` to the step list, and an answer can push it), an entry whose pass
expression is the empty string **is** visible: the empty expression parses
to one AND-group with one empty identifier token, and that token is a
member of such a history. -/
theorem C10_counterexample :
    filterVisible [""] ⟨some "", none⟩ = true := by decide

/-- C10 (amended): for every history that does not contain the empty
string, a summary entry that declares a pass expression equal to the empty
string is never visible: the empty expression parses to a single AND-group
containing one empty identifier token, that token is not a member of the
history, so the pass check fails. -/
theorem C10_empty_pass (history : List String) (hempty : "" ∉ history)
    (stopv : Option String) :
    filterVisible history ⟨some "", stopv⟩ = false := by
  have hsplit : jsSplit "" ',' = [""] := rfl
  have hsplit2 : jsSplit "" ' ' = [""] := rfl
  have htrim : jsTrim "" = "" := rfl
  have hcontains : history.contains "" = false := by
    simp [hempty]
  have hpass : passSatisfied history ⟨some "", stopv⟩ = false := by
    simp [passSatisfied, hsplit, htrim, is_in_history, hsplit2, hcontains]
    exact hempty
  rw [filterVisible_eq, hpass]
  rfl

/-- Witness for C10: the history `[a]` has no empty identifier, so the
empty pass expression hides the entry. -/
theorem C10_empty_pass_witness :
    filterVisible ["a"] ⟨some "", none⟩ = false :=
  C10_empty_pass ["a"] (by decide) none

end DecisionTree
